import Mathlib

/-!
Shallow embedding of the topoGen topology-generation pipeline
(`src/topoGen.cpp`, function `main`).

The only source file available is the driver `main`; the component
implementations (NodeImporter, OPTICSFilter, DelaunayGraphCreator,
BetaSkeletonFilter, PopulationDensityFilter, BaseTopology, SimulationTopology)
live in headers that are not part of the sources.  Consequently:

* the orchestration order of `main`, the identifier-assignment loop
  (lines 106-110), the `assert` guards before the OPTICS passes
  (lines 79-99), the `lengthFilter.enable` guard (lines 160-164) and the
  JSON output file-name precedence (lines 244-267) are embedded directly
  from the source;
* the component algorithms themselves are modelled from the specification,
  each such definition carries a doc comment starting `Modelled from the
  spec:`.

Geometry is carried out over `ℚ` (exact arithmetic, squared distances).
-/

namespace TopoGen

/-- A planar point with rational coordinates (latitude/longitude or planar
projection; geometry here only needs exact squared distances). -/
abbrev Point : Type := ℚ × ℚ

/-- Squared Euclidean distance between two points. -/
def sqDist (p q : Point) : ℚ :=
  (p.1 - q.1) ^ 2 + (p.2 - q.2) ^ 2

/-- The fixed Earth-radius constant of `topoGen.cpp`
(`constexpr double EARTH_RADIUS_KM = 6371.000785`), as an exact rational. -/
def EARTH_RADIUS_KM : ℚ := 6371000785 / 1000000

/-! ## The topology graph

Modelled from the spec (§3 TopologyGraph, §9 graph representation): nodes
are contiguous integer identifiers, edges are stored as pairs of
identifiers; edge weights are derived from the endpoint coordinates, so
they are a function of the edge and of the (fixed) node positions, not a
separate mutable field. -/

/-- A graph over node identifiers: a node set and an undirected edge set
stored as ordered pairs (an edge `(u,v)` connects `u` and `v` in both
directions). -/
structure SGraph where
  nodes : Finset ℕ
  edges : Finset (ℕ × ℕ)
deriving DecidableEq

/-- Well-formedness invariant of the topology graph (spec §3): edge
endpoints always reference existing node identifiers. -/
def SGraph.wf (g : SGraph) : Prop :=
  ∀ e ∈ g.edges, e.1 ∈ g.nodes ∧ e.2 ∈ g.nodes

instance : DecidablePred SGraph.wf := fun g =>
  inferInstanceAs (Decidable (∀ e ∈ g.edges, e.1 ∈ g.nodes ∧ e.2 ∈ g.nodes))

/-- `u` and `v` are joined by an edge of `g`, in either orientation. -/
def SGraph.adj (g : SGraph) (u v : ℕ) : Prop :=
  (u, v) ∈ g.edges ∨ (v, u) ∈ g.edges

instance (g : SGraph) (u v : ℕ) : Decidable (g.adj u v) :=
  inferInstanceAs (Decidable (_ ∨ _))

theorem SGraph.adj_symm {g : SGraph} {u v : ℕ} (h : g.adj u v) : g.adj v u :=
  h.elim Or.inr Or.inl

theorem SGraph.adj_mem_right {g : SGraph} (hwf : g.wf) {u v : ℕ}
    (h : g.adj u v) : v ∈ g.nodes := by
  rcases h with h | h
  · exact (hwf _ h).2
  · exact (hwf _ h).1

/-! ## Identifier assignment

Embedded from `topoGen.cpp` lines 106-110:

    int nodeId = 0;
    for (auto node : *locations) {
        node->setId(nodeId);
        ++nodeId;
    }

The location store is modelled as a list (the C++ container is iterated in
a fixed order); identifiers are `Int` as in the source (`int nodeId`). -/

/-- A stored geographic location: identifier plus coordinates. -/
structure Location where
  id : Int
  lat : ℚ
  lon : ℚ
deriving DecidableEq

/-- The body of the identifier-assignment loop of `main`: assign `n` to the
head location and continue with `n+1`. -/
def assignIdsFrom : Int → List Location → List Location
  | _, [] => []
  | n, l :: ls => { l with id := n } :: assignIdsFrom (n + 1) ls

/-- The identifier-assignment pass of `main` (starts from `nodeId = 0`). -/
def assignIds (ls : List Location) : List Location :=
  assignIdsFrom 0 ls

theorem assignIdsFrom_map_id (n : Int) (ls : List Location) :
    (assignIdsFrom n ls).map Location.id
      = (List.range ls.length).map (fun k : ℕ => n + (k : Int)) := by
  induction ls generalizing n with
  | nil => rfl
  | cons l tl ih =>
      have hf : ((fun k : ℕ => n + (k : Int)) ∘ Nat.succ)
          = (fun k : ℕ => (n + 1) + (k : Int)) := by
        funext k
        simp only [Function.comp_apply]
        push_cast
        ring
      calc (assignIdsFrom n (l :: tl)).map Location.id
          = n :: (assignIdsFrom (n + 1) tl).map Location.id := rfl
        _ = n :: (List.range tl.length).map (fun k : ℕ => (n + 1) + (k : Int)) := by
              rw [ih]
        _ = (List.range (l :: tl).length).map (fun k : ℕ => n + (k : Int)) := by
              rw [List.length_cons, List.range_succ_eq_map, List.map_cons,
                List.map_map, hf]
              simp

theorem assignIds_map_id (ls : List Location) :
    (assignIds ls).map Location.id
      = (List.range ls.length).map (fun k : ℕ => (k : Int)) := by
  have h0 : (fun k : ℕ => (0 : Int) + (k : Int)) = (fun k : ℕ => (k : Int)) := by
    funext k
    ring
  rw [assignIds, assignIdsFrom_map_id, h0]

theorem assignIds_id_nodup (ls : List Location) :
    ((assignIds ls).map Location.id).Nodup := by
  rw [assignIds_map_id]
  refine List.Nodup.map ?_ (List.nodup_range _)
  intro a b h
  simp only at h
  exact_mod_cast h

/-! ## The event trace of `main`

Embedded from `topoGen.cpp` lines 58-271: the sequence of pipeline stages
executed by `main`, in program order, as a function of the boolean
conditions that guard optional stages. -/

/-- One observable pipeline stage of `main`. -/
inductive Ev where
  | importCities
  | importCitiesFromFile
  | opticsNeighbour
  | opticsMetropolis
  | importSeacableLandingPoints
  | importSubmarineCableEdgesWaypoints
  | assignIds
  | triangulate
  | kmlOutputDelaunay
  | betaSkeletonFilter
  | densityFilter
  | degreeAnalysis
  | importSubmarineCableEdges
  | prune
  | kmlOutputGabriel
  | graphOutput
  | createSimTopo
  | addSimNodes
  | jsonOutput
deriving DecidableEq

/-- The trace of stages `main` executes, in source order
(`topoGen.cpp` lines 58-271).  `debug` selects the city source (line 67);
`kml`, `lengthFilter`, `graphOut`, `simFile`, `jsonOut` are the guards of
lines 139, 161, 197, 219 and 244 respectively. -/
def mainTrace (debug kml lengthFilter graphOut simFile jsonOut : Bool) :
    List Ev :=
  [if debug then Ev.importCitiesFromFile else Ev.importCities,
   Ev.opticsNeighbour, Ev.opticsMetropolis,
   Ev.importSeacableLandingPoints, Ev.importSubmarineCableEdgesWaypoints,
   Ev.assignIds, Ev.triangulate]
  ++ (if kml then [Ev.kmlOutputDelaunay] else [])
  ++ [Ev.betaSkeletonFilter]
  ++ (if lengthFilter then [Ev.densityFilter] else [])
  ++ [Ev.degreeAnalysis, Ev.importSubmarineCableEdges, Ev.prune]
  ++ (if kml then [Ev.kmlOutputGabriel] else [])
  ++ (if graphOut then [Ev.graphOutput] else [])
  ++ [Ev.createSimTopo]
  ++ (if simFile then [Ev.addSimNodes] else [])
  ++ (if jsonOut then [Ev.jsonOutput] else [])

/-- Position of the first occurrence of an event in a trace. -/
def evIdx (e : Ev) (tr : List Ev) : ℕ :=
  tr.findIdx (fun x => x = e)

/-! ## Beta-skeleton proximity filter

Modelled from the spec (§4.4, BetaSkeletonFilter::filterBetaSkeletonEdges is
not among the sources): an edge `(u,v)` is retained only if no third node
lies within the lune defined by the two circles of radius `β·d(u,v)/2`
positioned according to the standard beta-skeleton construction (for
`β ≥ 1`, disks centred at `u + (β/2)(v-u)` and `v + (β/2)(u-v)`); the
spec's unit-square scenario shows that points on the lune's boundary count
as lying within it, so the disks are closed. -/

/-- Convex combination `a + t·(b - a)` of two points, componentwise. -/
def lerp (a b : Point) (t : ℚ) : Point :=
  (a.1 + t * (b.1 - a.1), a.2 + t * (b.2 - a.2))

/-- `p` lies within the closed `β`-lune of the segment `u v` (`β ≥ 1`
construction: intersection of the two closed disks of squared radius
`β²/4 · d²(u,v)` centred at `u + (β/2)(v-u)` and `v + (β/2)(u-v)`). -/
def inLune (β : ℚ) (u v p : Point) : Prop :=
  sqDist p (lerp u v (β / 2)) ≤ β ^ 2 / 4 * sqDist u v ∧
  sqDist p (lerp v u (β / 2)) ≤ β ^ 2 / 4 * sqDist u v

instance (β : ℚ) (u v p : Point) : Decidable (inLune β u v p) :=
  inferInstanceAs (Decidable (_ ∧ _))

/-- An edge survives the beta-skeleton test: no third node of the graph
lies within its lune. -/
def keepBetaEdge (pos : ℕ → Point) (β : ℚ) (g : SGraph) (e : ℕ × ℕ) : Prop :=
  ∀ w ∈ g.nodes, w ≠ e.1 → w ≠ e.2 → ¬ inLune β (pos e.1) (pos e.2) (pos w)

instance (pos : ℕ → Point) (β : ℚ) (g : SGraph) (e : ℕ × ℕ) :
    Decidable (keepBetaEdge pos β g e) :=
  inferInstanceAs (Decidable (∀ w ∈ g.nodes, _ → _ → _))

/-- Modelled from the spec: the beta-skeleton filter examines every edge of
the triangulation graph and removes those failing the lune test; the node
set is untouched. -/
def filterBetaSkeletonEdges (pos : ℕ → Point) (β : ℚ) (g : SGraph) : SGraph :=
  { nodes := g.nodes
    edges := g.edges.filter (keepBetaEdge pos β g) }

/-! ## Population-density edge filter

Modelled from the spec (§4.5, PopulationDensityFilter::filterByLength is not
among the sources): for each surviving edge, the sampled population-density
context at/between the endpoints gives a maximal plausible length; edges
longer than that are removed, nothing else changes. -/

/-- Modelled from the spec: remove each edge whose squared length exceeds
the plausibility bound `maxSqLen` of the density context sampled between
its endpoints (`densAt` is the sampled density value at a node). -/
def filterByLength (pos : ℕ → Point) (densAt : ℕ → ℚ) (maxSqLen : ℚ → ℚ)
    (g : SGraph) : SGraph :=
  { nodes := g.nodes
    edges := g.edges.filter fun e =>
      sqDist (pos e.1) (pos e.2) ≤ maxSqLen ((densAt e.1 + densAt e.2) / 2) }

/-- The density-filter stage of `main`, embedded from `topoGen.cpp`
lines 160-164: the filter runs only when the `lengthFilter.enable`
configuration flag is true; otherwise the graph is passed through. -/
def densityFilterStage (enable : Bool) (pos : ℕ → Point) (densAt : ℕ → ℚ)
    (maxSqLen : ℚ → ℚ) (g : SGraph) : SGraph :=
  if enable then filterByLength pos densAt maxSqLen g else g

/-- Squared edge weight derived from the endpoint positions (the spec's
edge weight is the great-circle distance of the endpoints; weights are a
function of the edge, not separate state). -/
def edgeSqWeight (pos : ℕ → Point) (e : ℕ × ℕ) : ℚ :=
  sqDist (pos e.1) (pos e.2)

/-! ## OPTICS density clustering

Modelled from the spec (§4.1, OPTICSFilter is not among the sources): a
density-based cluster ordering (visit the currently-closest unvisited
point; core-distance = distance to the minPts-th nearest neighbour within
ε), segmented at reachability `> ε′` to extract clusters, each dense
cluster collapsed to a representative, unclustered points preserved.  The
whole computation is a pure function of the input list, the parameters and
the seed; the seed selects the traversal start and tie-breaks. -/

/-- Distances (squared) from point `i` of `pts` to the other points that
lie within squared radius `eps2`. -/
def neighbourSqDists (pts : List Point) (eps2 : ℚ) (i : ℕ) : List ℚ :=
  ((List.range pts.length).filter fun j =>
      j ≠ i ∧ sqDist (pts.getD i (0, 0)) (pts.getD j (0, 0)) ≤ eps2).map
    fun j => sqDist (pts.getD i (0, 0)) (pts.getD j (0, 0))

/-- The `k`-th smallest element of a rational list, if it exists. -/
def kthSmallest (l : List ℚ) (k : ℕ) : Option ℚ :=
  (l.mergeSort (fun a b => a ≤ b)).get? k

/-- Core squared distance of point `i`: squared distance to its
`minPts`-th nearest neighbour within the radius, when it has that many. -/
def coreSqDist (pts : List Point) (eps2 : ℚ) (minPts : ℕ) (i : ℕ) :
    Option ℚ :=
  kthSmallest (neighbourSqDists pts eps2 i) (minPts - 1)

/-- Pick from `unvisited` the index with the smallest pending reachability
(`none` counts as infinite), ties broken by the seed-rotated index. -/
def pickNext (seed : ℕ) (n : ℕ) (reach : ℕ → Option ℚ) (unvisited : List ℕ) :
    Option ℕ :=
  unvisited.foldl
    (fun best j =>
      match best with
      | none => some j
      | some b =>
          match reach b, reach j with
          | none, none => if (j + seed) % n < (b + seed) % n then some j else some b
          | none, some _ => some j
          | some _, none => some b
          | some rb, some rj =>
              if rj < rb ∨ (rj = rb ∧ (j + seed) % n < (b + seed) % n)
              then some j else some b)
    none

/-- One update of the pending reachabilities after visiting `i`: each
unvisited neighbour `j` of `i` gets `max (core i) (dist i j)`, kept only if
smaller than its previous pending value. -/
def updateReach (pts : List Point) (eps2 : ℚ) (minPts : ℕ) (i : ℕ)
    (reach : ℕ → Option ℚ) (unvisited : List ℕ) : ℕ → Option ℚ :=
  fun j =>
    if j ∈ unvisited ∧ j ≠ i ∧
        sqDist (pts.getD i (0, 0)) (pts.getD j (0, 0)) ≤ eps2 then
      match coreSqDist pts eps2 minPts i with
      | none => reach j
      | some c =>
          let cand := max c (sqDist (pts.getD i (0, 0)) (pts.getD j (0, 0)))
          match reach j with
          | none => some cand
          | some r => some (min r cand)
    else reach j

/-- The cluster-ordering traversal: repeatedly visit the unvisited point of
smallest pending reachability, recording each visited index with the
reachability it was reached at. -/
def orderingLoop (pts : List Point) (eps2 : ℚ) (minPts seed : ℕ) :
    ℕ → List ℕ → (ℕ → Option ℚ) → List (ℕ × Option ℚ)
  | 0, _, _ => []
  | _ + 1, [], _ => []
  | fuel + 1, unvisited, reach =>
      match pickNext seed pts.length reach unvisited with
      | none => []
      | some i =>
          (i, reach i) ::
            orderingLoop pts eps2 minPts seed fuel (unvisited.erase i)
              (updateReach pts eps2 minPts i reach (unvisited.erase i))

/-- The full density-based cluster ordering of the point list. -/
def clusterOrdering (pts : List Point) (eps2 : ℚ) (minPts seed : ℕ) :
    List (ℕ × Option ℚ) :=
  orderingLoop pts eps2 minPts seed pts.length (List.range pts.length)
    (fun _ => none)

/-- Segment the ordering into clusters: a new segment starts wherever the
reachability is undefined or exceeds the extraction threshold `epsP2`. -/
def segmentOrdering (epsP2 : ℚ) :
    List (ℕ × Option ℚ) → List (List ℕ)
  | [] => []
  | (i, _) :: rest =>
      match segmentOrdering epsP2 rest with
      | [] => [[i]]
      | seg :: segs =>
          match rest with
          | [] => [[i]]
          | (_, r) :: _ =>
              match r with
              | none => [i] :: seg :: segs
              | some rq => if rq ≤ epsP2 then (i :: seg) :: segs
                           else [i] :: seg :: segs

/-- Collapse each extracted dense cluster (size ≥ 2) to its leading
representative; singleton segments are points never assigned to a cluster
and are preserved unchanged. -/
def collapseClusters (segs : List (List ℕ)) : List ℕ :=
  segs.flatMap fun seg =>
    match seg with
    | [] => []
    | [i] => [i]
    | i :: _ :: _ => [i]

/-- Modelled from the spec: the OPTICS density clusterer — compute the
cluster ordering, segment it at reachability `> ε′`, collapse dense
clusters to representatives and keep unclustered points; a pure function
of the input, the parameters and the seed. -/
def opticsFilter (pts : List Point) (eps2 : ℚ) (minPts : ℕ) (epsP2 : ℚ)
    (seed : ℕ) : List Point :=
  (collapseClusters
      (segmentOrdering epsP2 (clusterOrdering pts eps2 minPts seed))).map
    fun i => pts.getD i (0, 0)

/-- The OPTICS stage of `main`, embedded from `topoGen.cpp` lines 79-88
(and identically 90-99): read `minPts` and assert it positive, read
`maxClusterDistance` and assert it positive, derive
`eps = maxClusterDistance / EARTH_RADIUS_KM` and only then construct and
run the filter with `ε′ = 0.8·ε`.  A failed assertion aborts the run
before the filter is ever invoked. -/
def opticsStage (minPts : ℕ) (maxClusterDistance : ℚ) (seed : ℕ)
    (pts : List Point) : Except String (List Point) :=
  if ¬ minPts > 0 then
    Except.error "assertion failed: minPts > 0"
  else if ¬ maxClusterDistance > 0 then
    Except.error "assertion failed: maxClusterDistance > 0.0"
  else
    let eps := maxClusterDistance / EARTH_RADIUS_KM
    Except.ok (opticsFilter pts (eps ^ 2) minPts ((8 / 10 * eps) ^ 2) seed)

/-- The two successive clustering passes of `main` (`topoGen.cpp`
lines 79-99): the neighbour-cluster pass, then the metropolis-cluster pass
over its output; an assertion failure in either pass aborts the pipeline. -/
def clusteringPhase (minPts1 : ℕ) (maxDist1 : ℚ) (minPts2 : ℕ)
    (maxDist2 : ℚ) (seed : ℕ) (pts : List Point) :
    Except String (List Point) :=
  (opticsStage minPts1 maxDist1 seed pts).bind
    (opticsStage minPts2 maxDist2 seed)

/-! ## JSON output file name

Embedded from `topoGen.cpp` lines 244-267. -/

/-- The JSON output file-name choice of `main` (`topoGen.cpp`
lines 248-261): the command-line argument has precedence over the
`json_graph_output.filename` configuration parameter when it is a
non-empty string. -/
def chooseJsonFileName (cli cfg : String) : String :=
  if cli.length > 0 then cli else cfg

/-! ## Connectivity pruning

Modelled from the spec (§4.7, BaseTopology::prune is not among the
sources): compute the connected components of the current graph, retain
only the single largest one (by node count, deterministic choice among
ties), discard all other nodes and their incident edges.

Reachability is computed by saturating the one-step neighbour expansion;
the expansion stabilises after at most `g.nodes.card` rounds. -/

/-- One expansion round: add every node adjacent to the current set. -/
def step (g : SGraph) (s : Finset ℕ) : Finset ℕ :=
  s ∪ g.nodes.filter fun x => ∃ u ∈ s, g.adj u x

/-- All nodes reachable from `v`: the expansion saturated for
`g.nodes.card` rounds starting from `{v}`. -/
def reachSet (g : SGraph) (v : ℕ) : Finset ℕ :=
  (step g)^[g.nodes.card] {v}

/-- The connected component of `v`, as computed by saturation. -/
def componentOf (g : SGraph) (v : ℕ) : Finset ℕ :=
  reachSet g v

/-- `v` is connected to `u` by a chain of edges. -/
def Reach (g : SGraph) (u v : ℕ) : Prop :=
  Relation.ReflTransGen g.adj u v

theorem mem_step {g : SGraph} {s : Finset ℕ} {x : ℕ} :
    x ∈ step g s ↔ x ∈ s ∨ (x ∈ g.nodes ∧ ∃ u ∈ s, g.adj u x) := by
  simp [step, Finset.mem_union, Finset.mem_filter]

theorem subset_step (g : SGraph) (s : Finset ℕ) : s ⊆ step g s :=
  Finset.subset_union_left

theorem step_subset_nodes {g : SGraph} {s : Finset ℕ} (h : s ⊆ g.nodes) :
    step g s ⊆ g.nodes :=
  Finset.union_subset h (Finset.filter_subset _ _)

theorem iterate_step_subset_nodes {g : SGraph} {s : Finset ℕ}
    (h : s ⊆ g.nodes) (k : ℕ) : (step g)^[k] s ⊆ g.nodes := by
  induction k generalizing s with
  | zero => exact h
  | succ k ih =>
      rw [Function.iterate_succ_apply]
      exact ih (step_subset_nodes h)

theorem subset_iterate_step (g : SGraph) (s : Finset ℕ) (k : ℕ) :
    s ⊆ (step g)^[k] s := by
  induction k generalizing s with
  | zero => exact Finset.Subset.refl s
  | succ k ih =>
      rw [Function.iterate_succ_apply]
      exact (subset_step g s).trans (ih _)

theorem card_le_of_no_fix {g : SGraph} {v : ℕ} :
    ∀ i : ℕ,
      (∀ j, j < i → step g ((step g)^[j] {v}) ≠ (step g)^[j] {v}) →
      i + 1 ≤ ((step g)^[i] {v}).card := by
  intro i
  induction i with
  | zero => simp
  | succ i ih =>
      intro h
      have hi : i + 1 ≤ ((step g)^[i] {v}).card :=
        ih fun j hj => h j (hj.trans (Nat.lt_succ_self i))
      have hss : (step g)^[i] {v} ⊂ step g ((step g)^[i] {v}) :=
        Finset.ssubset_iff_of_subset (subset_step g _) |>.2 <| by
          rcases Finset.exists_of_ssubset
            (lt_of_le_of_ne (subset_step g ((step g)^[i] {v}))
              (Ne.symm (h i (Nat.lt_succ_self i)))) with ⟨x, hx1, hx2⟩
          exact ⟨x, hx1, hx2⟩
      have : ((step g)^[i] {v}).card < (step g ((step g)^[i] {v})).card :=
        Finset.card_lt_card hss
      rw [Function.iterate_succ_apply']
      omega

/-- Saturation: once run for `g.nodes.card` rounds from a node of the
graph, the expansion has reached a fixed point. -/
theorem step_reachSet_fix {g : SGraph} {v : ℕ} (hv : v ∈ g.nodes) :
    step g (reachSet g v) = reachSet g v := by
  set N := g.nodes.card with hN
  have hstart : ({v} : Finset ℕ) ⊆ g.nodes := Finset.singleton_subset_iff.2 hv
  by_contra hne
  have hallne : ∀ j, j < N → step g ((step g)^[j] {v}) ≠ (step g)^[j] {v} := by
    intro j hj hfix
    have hNfix : (step g)^[N] {v} = (step g)^[j] {v} := by
      have hsplit : N = (N - j) + j := by omega
      rw [hsplit, Function.iterate_add_apply,
        Function.iterate_fixed hfix]
    exact hne (by rw [reachSet, ← hN, hNfix, hfix])
  have hbig : N + 1 ≤ ((step g)^[N] {v}).card := card_le_of_no_fix N hallne
  have hsmall : ((step g)^[N] {v}).card ≤ N := by
    rw [hN]
    exact Finset.card_le_card (iterate_step_subset_nodes hstart N)
  omega

theorem mem_componentOf_self {g : SGraph} {v : ℕ} : v ∈ componentOf g v :=
  subset_iterate_step g {v} g.nodes.card (Finset.mem_singleton_self v)

theorem componentOf_subset_nodes {g : SGraph} {v : ℕ} (hv : v ∈ g.nodes) :
    componentOf g v ⊆ g.nodes :=
  iterate_step_subset_nodes (Finset.singleton_subset_iff.2 hv) _

/-- The component of `v` is closed under adjacency. -/
theorem componentOf_closed {g : SGraph} (hwf : g.wf) {v u x : ℕ}
    (hv : v ∈ g.nodes) (hu : u ∈ componentOf g v) (hadj : g.adj u x) :
    x ∈ componentOf g v := by
  have : x ∈ step g (componentOf g v) :=
    mem_step.2 (Or.inr ⟨SGraph.adj_mem_right hwf hadj, u, hu, hadj⟩)
  rwa [componentOf, step_reachSet_fix hv] at this

/-- Soundness of the saturation: everything it reaches is reachable. -/
theorem reach_of_mem_iterate {g : SGraph} {v : ℕ} :
    ∀ (k : ℕ) (s : Finset ℕ), (∀ y ∈ s, Reach g v y) →
      ∀ x ∈ (step g)^[k] s, Reach g v x := by
  intro k
  induction k with
  | zero => exact fun s hs x hx => hs x hx
  | succ k ih =>
      intro s hs x hx
      rw [Function.iterate_succ_apply] at hx
      refine ih (step g s) ?_ x hx
      intro y hy
      rcases mem_step.1 hy with hy | ⟨_, u, hu, hadj⟩
      · exact hs y hy
      · exact (hs u hu).tail hadj

theorem reach_of_mem_componentOf {g : SGraph} {v x : ℕ}
    (hx : x ∈ componentOf g v) : Reach g v x := by
  refine reach_of_mem_iterate g.nodes.card {v} ?_ x hx
  intro y hy
  rw [Finset.mem_singleton] at hy
  exact hy ▸ Relation.ReflTransGen.refl

/-- Completeness of the saturation: every reachable node is found. -/
theorem mem_componentOf_of_reach {g : SGraph} (hwf : g.wf) {v x : ℕ}
    (hv : v ∈ g.nodes) (hr : Reach g v x) : x ∈ componentOf g v := by
  induction hr with
  | refl => exact mem_componentOf_self
  | tail _ hadj ih => exact componentOf_closed hwf hv ih hadj

theorem reach_symm {g : SGraph} {u v : ℕ} (h : Reach g u v) : Reach g v u :=
  Relation.ReflTransGen.symmetric (fun _ _ hadj => SGraph.adj_symm hadj) h

/-- The component retained by the pruner: scan the nodes in ascending
identifier order, keeping the first component strictly larger than the
best so far (so among maximum-size components the one rooted at the
smallest identifier is chosen — a deterministic tie-break). -/
def largestComp (g : SGraph) : Finset ℕ :=
  (g.nodes.sort (· ≤ ·)).foldl
    (fun best v =>
      if best.card < (componentOf g v).card then componentOf g v else best)
    ∅

theorem foldl_best_spec (g : SGraph) :
    ∀ (l : List ℕ) (b : Finset ℕ),
      (l.foldl (fun best v =>
          if best.card < (componentOf g v).card then componentOf g v
          else best) b = b ∨
        ∃ v ∈ l,
          l.foldl (fun best v =>
            if best.card < (componentOf g v).card then componentOf g v
            else best) b = componentOf g v) ∧
      b.card ≤ (l.foldl (fun best v =>
          if best.card < (componentOf g v).card then componentOf g v
          else best) b).card ∧
      ∀ v ∈ l, (componentOf g v).card ≤ (l.foldl (fun best v =>
          if best.card < (componentOf g v).card then componentOf g v
          else best) b).card := by
  intro l
  induction l with
  | nil => exact fun b => ⟨Or.inl rfl, le_refl _, by simp⟩
  | cons v tl ih =>
      intro b
      simp only [List.foldl_cons]
      set b' := if b.card < (componentOf g v).card then componentOf g v
        else b with hb'
      rcases ih b' with ⟨hsh, hcard, hall⟩
      have hbb' : b.card ≤ b'.card := by
        rw [hb']
        split
        · omega
        · exact le_refl _
      have hvb' : (componentOf g v).card ≤ b'.card := by
        rw [hb']
        split
        · exact le_refl _
        · omega
      refine ⟨?_, hbb'.trans hcard, ?_⟩
      · rcases hsh with hsh | ⟨w, hw, hsh⟩
        · by_cases hc : b.card < (componentOf g v).card
          · refine Or.inr ⟨v, List.mem_cons_self .., ?_⟩
            rw [hsh, hb', if_pos hc]
          · refine Or.inl ?_
            rw [hsh, hb', if_neg hc]
        · exact Or.inr ⟨w, List.mem_cons_of_mem _ hw, hsh⟩
      · intro w hw
        rcases List.mem_cons.1 hw with hw | hw
        · exact hw ▸ hvb'.trans hcard
        · exact hall w hw

/-- The pruning pass: keep only the retained component and the edges with
both endpoints inside it. -/
def prune (g : SGraph) : SGraph :=
  { nodes := largestComp g
    edges := g.edges.filter fun e =>
      e.1 ∈ largestComp g ∧ e.2 ∈ largestComp g }

theorem largestComp_is_component {g : SGraph} (hne : g.nodes.Nonempty) :
    ∃ v ∈ g.nodes, largestComp g = componentOf g v := by
  have hL : largestComp g
      = (g.nodes.sort (· ≤ ·)).foldl
          (fun best v =>
            if best.card < (componentOf g v).card then componentOf g v
            else best) ∅ := rfl
  rcases foldl_best_spec g (g.nodes.sort (· ≤ ·)) ∅ with ⟨hsh, _, hall⟩
  rcases hsh with hsh | ⟨v, hv, hsh⟩
  · exfalso
    rcases hne with ⟨v, hv⟩
    have h1 := hall v ((Finset.mem_sort _).2 hv)
    rw [← hL] at h1 hsh
    rw [hsh, Finset.card_empty] at h1
    have hmem : v ∈ componentOf g v := mem_componentOf_self
    have hpos : 0 < (componentOf g v).card := Finset.card_pos.2 ⟨v, hmem⟩
    omega
  · rw [← hL] at hsh
    exact ⟨v, (Finset.mem_sort _).1 hv, hsh⟩

theorem largestComp_maximal {g : SGraph} (v : ℕ) (hv : v ∈ g.nodes) :
    (componentOf g v).card ≤ (largestComp g).card :=
  (foldl_best_spec g (g.nodes.sort (· ≤ ·)) ∅).2.2 v ((Finset.mem_sort _).2 hv)

theorem prune_adj {g : SGraph} {a b : ℕ} :
    (prune g).adj a b ↔
      g.adj a b ∧ a ∈ largestComp g ∧ b ∈ largestComp g := by
  simp only [prune, SGraph.adj, Finset.mem_filter]
  tauto

/-- Paths of `g` that start inside the retained component stay inside it
and survive pruning. -/
theorem reach_lift_prune {g : SGraph} (hwf : g.wf) {v : ℕ}
    (hv : v ∈ g.nodes) (hcomp : largestComp g = componentOf g v) {u x : ℕ}
    (hu : u ∈ largestComp g) (hr : Reach g u x) :
    x ∈ largestComp g ∧ Reach (prune g) u x := by
  induction hr with
  | refl => exact ⟨hu, Relation.ReflTransGen.refl⟩
  | @tail b c _ hadj ih =>
      rcases ih with ⟨hb, hpr⟩
      have hx : c ∈ largestComp g := by
        rw [hcomp]
        exact componentOf_closed hwf hv (hcomp ▸ hb) hadj
      exact ⟨hx, hpr.tail (prune_adj.2 ⟨hadj, hb, hx⟩)⟩

/-! ## Triangulation predicate and the unit-square scenario

Modelled from the spec (§4.3, DelaunayGraphCreator is not among the
sources): a triangulation satisfies the empty-circumcircle rule when no
node of the set lies strictly inside the circumscribing circle of any of
its triangles. -/

/-- Twice the signed area of the triangle `a b c` (positive when
counterclockwise). -/
def orient (a b c : Point) : ℚ :=
  (b.1 - a.1) * (c.2 - a.2) - (b.2 - a.2) * (c.1 - a.1)

/-- The in-circle determinant: for a counterclockwise triangle `a b c` it
is positive exactly when `p` lies strictly inside the circumcircle. -/
def inCircleDet (a b c p : Point) : ℚ :=
  (a.1 - p.1) *
      ((b.2 - p.2) * ((c.1 - p.1) ^ 2 + (c.2 - p.2) ^ 2)
        - ((b.1 - p.1) ^ 2 + (b.2 - p.2) ^ 2) * (c.2 - p.2))
    - (a.2 - p.2) *
      ((b.1 - p.1) * ((c.1 - p.1) ^ 2 + (c.2 - p.2) ^ 2)
        - ((b.1 - p.1) ^ 2 + (b.2 - p.2) ^ 2) * (c.1 - p.1))
    + ((a.1 - p.1) ^ 2 + (a.2 - p.2) ^ 2) *
      ((b.1 - p.1) * (c.2 - p.2) - (b.2 - p.2) * (c.1 - p.1))

/-- `p` lies strictly inside the circumcircle of the triangle `a b c`
(orientation-independent). -/
def strictlyInsideCircumcircle (a b c p : Point) : Prop :=
  0 < orient a b c * inCircleDet a b c p

instance (a b c p : Point) : Decidable (strictlyInsideCircumcircle a b c p) :=
  inferInstanceAs (Decidable (_ < _))

/-- The three edges of a triangle of node identifiers. -/
def edgesOfTri (t : ℕ × ℕ × ℕ) : Finset (ℕ × ℕ) :=
  {(t.1, t.2.1), (t.2.1, t.2.2), (t.1, t.2.2)}

/-- The graph of a triangle list: one edge per triangulation edge. -/
def graphOfTris (nodes : Finset ℕ) (tris : List (ℕ × ℕ × ℕ)) : SGraph :=
  { nodes := nodes
    edges := tris.foldr (fun t acc => edgesOfTri t ∪ acc) ∅ }

/-- The empty-circumcircle rule of the spec: no node of the set lies
strictly inside the circumscribing circle of any triangle. -/
def emptyCircumcircles (pos : ℕ → Point) (nodes : Finset ℕ)
    (tris : List (ℕ × ℕ × ℕ)) : Prop :=
  ∀ t ∈ tris, ∀ w ∈ nodes,
    ¬ strictlyInsideCircumcircle (pos t.1) (pos t.2.1) (pos t.2.2) (pos w)

instance (pos : ℕ → Point) (nodes : Finset ℕ) (tris : List (ℕ × ℕ × ℕ)) :
    Decidable (emptyCircumcircles pos nodes tris) :=
  inferInstanceAs (Decidable (∀ t ∈ tris, ∀ w ∈ nodes, _))

/-- Degree of a node: number of edges incident to it. -/
def SGraph.degree (g : SGraph) (v : ℕ) : ℕ :=
  (g.edges.filter fun e => e.1 = v ∨ e.2 = v).card

/-- The four corners of the unit square, as node positions `0`-`3` in
counterclockwise order. -/
def squarePos : ℕ → Point := fun i =>
  if i = 0 then (0, 0)
  else if i = 1 then (1, 0)
  else if i = 2 then (1, 1)
  else if i = 3 then (0, 1)
  else (0, 0)

/-- The node set of the unit-square scenario. -/
def squareNodes : Finset ℕ := {0, 1, 2, 3}

/-- The two triangles of the square's triangulation, sharing the diagonal
`(0,2)`. -/
def squareTris : List (ℕ × ℕ × ℕ) := [(0, 1, 2), (0, 2, 3)]

/-- The triangulation graph of the unit square. -/
def squareDelaunay : SGraph := graphOfTris squareNodes squareTris

/-- The four boundary edges of the unit square. -/
def squareBoundary : Finset (ℕ × ℕ) := {(0, 1), (1, 2), (2, 3), (0, 3)}

theorem SGraph.ext_nodes_edges {g h : SGraph} (hn : g.nodes = h.nodes)
    (he : g.edges = h.edges) : g = h := by
  cases g
  cases h
  simp_all

theorem keepBeta01 : keepBetaEdge squarePos 1 squareDelaunay (0, 1) := by
  intro w hw h0 h1
  fin_cases hw <;>
    norm_num [inLune, lerp, sqDist, squarePos] at h0 h1 ⊢

theorem keepBeta12 : keepBetaEdge squarePos 1 squareDelaunay (1, 2) := by
  intro w hw h0 h1
  fin_cases hw <;>
    norm_num [inLune, lerp, sqDist, squarePos] at h0 h1 ⊢

theorem keepBeta23 : keepBetaEdge squarePos 1 squareDelaunay (2, 3) := by
  intro w hw h0 h1
  fin_cases hw <;>
    norm_num [inLune, lerp, sqDist, squarePos] at h0 h1 ⊢

theorem keepBeta03 : keepBetaEdge squarePos 1 squareDelaunay (0, 3) := by
  intro w hw h0 h1
  fin_cases hw <;>
    norm_num [inLune, lerp, sqDist, squarePos] at h0 h1 ⊢

theorem dropBeta02 : ¬ keepBetaEdge squarePos 1 squareDelaunay (0, 2) := by
  intro h
  apply h 1 (by decide) (by decide) (by decide)
  norm_num [inLune, lerp, sqDist, squarePos]

theorem squareGabrielEdges :
    (filterBetaSkeletonEdges squarePos 1 squareDelaunay).edges
      = squareBoundary := by
  show squareDelaunay.edges.filter (keepBetaEdge squarePos 1 squareDelaunay)
      = squareBoundary
  have hE : squareDelaunay.edges
      = insert (0, 1) (insert (1, 2) (insert (2, 3) (insert (0, 3)
          {(0, 2)}))) := by decide
  rw [hE, Finset.filter_insert, if_pos keepBeta01, Finset.filter_insert,
    if_pos keepBeta12, Finset.filter_insert, if_pos keepBeta23,
    Finset.filter_insert, if_pos keepBeta03, Finset.filter_singleton,
    if_neg dropBeta02]
  decide

theorem squareGabrielGraph :
    filterBetaSkeletonEdges squarePos 1 squareDelaunay
      = { nodes := squareNodes, edges := squareBoundary } :=
  SGraph.ext_nodes_edges rfl squareGabrielEdges

end TopoGen

namespace TopoGen

/-! ## The claims -/

/-- C1. Identifier assignment runs exactly once, after all node sources
(clustered cities, metropolis hubs, cable landing points, cable waypoints)
are merged into the location store and strictly before the Delaunay
triangulation is built; afterwards the identifiers of the `N` stored
locations form exactly the contiguous range `[0, N)` with no two locations
sharing an identifier, for every merged input of size `N ≥ 1`. -/
theorem identifier_assignment_once_contiguous :
    (∀ debug kml lf go sf jo : Bool,
      (mainTrace debug kml lf go sf jo).count Ev.assignIds = 1 ∧
      evIdx Ev.opticsNeighbour (mainTrace debug kml lf go sf jo)
          < evIdx Ev.assignIds (mainTrace debug kml lf go sf jo) ∧
      evIdx Ev.opticsMetropolis (mainTrace debug kml lf go sf jo)
          < evIdx Ev.assignIds (mainTrace debug kml lf go sf jo) ∧
      evIdx Ev.importSeacableLandingPoints (mainTrace debug kml lf go sf jo)
          < evIdx Ev.assignIds (mainTrace debug kml lf go sf jo) ∧
      evIdx Ev.importSubmarineCableEdgesWaypoints
            (mainTrace debug kml lf go sf jo)
          < evIdx Ev.assignIds (mainTrace debug kml lf go sf jo) ∧
      evIdx Ev.assignIds (mainTrace debug kml lf go sf jo)
          < evIdx Ev.triangulate (mainTrace debug kml lf go sf jo)) ∧
    (∀ ls : List Location, 1 ≤ ls.length →
      (assignIds ls).map Location.id
          = (List.range ls.length).map (fun k : ℕ => (k : Int)) ∧
      ((assignIds ls).map Location.id).Nodup) := by
  constructor
  · decide
  · intro ls _
    exact ⟨assignIds_map_id ls, assignIds_id_nodup ls⟩

/-- Witness for C1: a concrete one-element store gets identifier range
`[0, 1)`. -/
theorem identifier_assignment_once_contiguous_witness :
    1 ≤ ([{ id := 7, lat := 0, lon := 0 }] : List Location).length ∧
    ((assignIds [{ id := 7, lat := 0, lon := 0 }]).map Location.id
        = (List.range 1).map (fun k : ℕ => (k : Int)) ∧
      ((assignIds [{ id := 7, lat := 0, lon := 0 }]).map Location.id).Nodup) :=
  ⟨by decide,
    identifier_assignment_once_contiguous.2
      [{ id := 7, lat := 0, lon := 0 }] (by decide)⟩

/-- C2. The beta-skeleton proximity filter and the population-density edge
filter only remove edges and never add or alter any: the edge set after
each stage is a subset of the edge set before it (in particular, applied
to the triangulation graph, the beta-skeleton output edge set is a subset
of the triangulation's edge set), and neither stage modifies the node
set. -/
theorem filters_only_remove_edges :
    ∀ (pos : ℕ → Point) (β : ℚ) (densAt : ℕ → ℚ) (maxSqLen : ℚ → ℚ)
      (g : SGraph),
      (filterBetaSkeletonEdges pos β g).edges ⊆ g.edges ∧
      (filterBetaSkeletonEdges pos β g).nodes = g.nodes ∧
      (filterByLength pos densAt maxSqLen g).edges ⊆ g.edges ∧
      (filterByLength pos densAt maxSqLen g).nodes = g.nodes :=
  fun _ _ _ _ g =>
    ⟨Finset.filter_subset _ g.edges, rfl,
      Finset.filter_subset _ g.edges, rfl⟩

/-- C3. After the pruner runs, the resulting graph is exactly one
connected component of the pre-prune graph: its node set is a component of
the pre-prune graph, of maximum size among all components, nonempty, all
remaining nodes are mutually reachable inside the pruned graph, the
retained node set is closed under pre-prune reachability (so it is a full
component and everything outside it is discarded), and an edge survives
precisely when it was a pre-prune edge with both endpoints retained.  The
choice among equally-largest components is deterministic: `prune` is a
function of the graph, scanning nodes in ascending identifier order. -/
theorem prune_single_largest_component (g : SGraph) (hwf : g.wf)
    (hne : g.nodes.Nonempty) :
    (∃ v ∈ g.nodes, (prune g).nodes = componentOf g v) ∧
    (∀ v ∈ g.nodes, (componentOf g v).card ≤ (prune g).nodes.card) ∧
    (prune g).nodes.Nonempty ∧
    (∀ u ∈ (prune g).nodes, ∀ x ∈ (prune g).nodes, Reach (prune g) u x) ∧
    (∀ u ∈ (prune g).nodes, ∀ x, Reach g u x → x ∈ (prune g).nodes) ∧
    (prune g).nodes ⊆ g.nodes ∧
    (∀ e, e ∈ (prune g).edges ↔
      e ∈ g.edges ∧ e.1 ∈ (prune g).nodes ∧ e.2 ∈ (prune g).nodes) := by
  obtain ⟨v, hv, hcomp⟩ := largestComp_is_component hne
  have hnodes : (prune g).nodes = largestComp g := rfl
  refine ⟨⟨v, hv, hnodes.trans hcomp⟩, ?_, ?_, ?_, ?_, ?_, ?_⟩
  · intro w hw
    rw [hnodes]
    exact largestComp_maximal w hw
  · rw [hnodes, hcomp]
    exact ⟨v, mem_componentOf_self⟩
  · intro u hu x hx
    rw [hnodes, hcomp] at hu hx
    have hvu : Reach g v u := reach_of_mem_componentOf hu
    have hvx : Reach g v x := reach_of_mem_componentOf hx
    have hux : Reach g u x := (reach_symm hvu).trans hvx
    exact (reach_lift_prune hwf hv hcomp (hcomp ▸ hu) hux).2
  · intro u hu x hr
    rw [hnodes] at hu ⊢
    exact (reach_lift_prune hwf hv hcomp hu hr).1
  · rw [hnodes, hcomp]
    exact componentOf_subset_nodes hv
  · intro e
    simp only [prune, Finset.mem_filter]

/-- A concrete pre-prune graph for the C3 witness: component `{0, 1}` with
one edge, plus the isolated node `2`. -/
def pruneExampleGraph : SGraph :=
  { nodes := {0, 1, 2}, edges := {(0, 1)} }

/-- Witness for C3: the pruner applied to the concrete graph. -/
theorem prune_single_largest_component_witness :
    (∃ v ∈ pruneExampleGraph.nodes,
      (prune pruneExampleGraph).nodes = componentOf pruneExampleGraph v) ∧
    (∀ v ∈ pruneExampleGraph.nodes,
      (componentOf pruneExampleGraph v).card
        ≤ (prune pruneExampleGraph).nodes.card) ∧
    (prune pruneExampleGraph).nodes.Nonempty ∧
    (∀ u ∈ (prune pruneExampleGraph).nodes,
      ∀ x ∈ (prune pruneExampleGraph).nodes,
        Reach (prune pruneExampleGraph) u x) ∧
    (∀ u ∈ (prune pruneExampleGraph).nodes, ∀ x,
      Reach pruneExampleGraph u x → x ∈ (prune pruneExampleGraph).nodes) ∧
    (prune pruneExampleGraph).nodes ⊆ pruneExampleGraph.nodes ∧
    (∀ e, e ∈ (prune pruneExampleGraph).edges ↔
      e ∈ pruneExampleGraph.edges ∧
        e.1 ∈ (prune pruneExampleGraph).nodes ∧
        e.2 ∈ (prune pruneExampleGraph).nodes) :=
  prune_single_largest_component pruneExampleGraph (by decide) (by decide)

/-- C4. Ground-truth cable nodes (landing points and waypoints) are merged
before the triangulation is constructed, while the ground-truth edges are
inserted only after both the beta-skeleton filter and the density filter
have run — so ground-truth edges are never subjected to triangulation,
proximity filtering or density filtering. -/
theorem ground_truth_nodes_early_edges_late :
    (∀ debug kml lf go sf jo : Bool,
      evIdx Ev.importSeacableLandingPoints (mainTrace debug kml lf go sf jo)
          < evIdx Ev.triangulate (mainTrace debug kml lf go sf jo) ∧
      evIdx Ev.importSubmarineCableEdgesWaypoints
            (mainTrace debug kml lf go sf jo)
          < evIdx Ev.triangulate (mainTrace debug kml lf go sf jo) ∧
      evIdx Ev.triangulate (mainTrace debug kml lf go sf jo)
          < evIdx Ev.importSubmarineCableEdges
              (mainTrace debug kml lf go sf jo) ∧
      evIdx Ev.betaSkeletonFilter (mainTrace debug kml lf go sf jo)
          < evIdx Ev.importSubmarineCableEdges
              (mainTrace debug kml lf go sf jo)) ∧
    (∀ debug kml go sf jo : Bool,
      evIdx Ev.densityFilter (mainTrace debug kml true go sf jo)
          < evIdx Ev.importSubmarineCableEdges
              (mainTrace debug kml true go sf jo)) := by
  constructor
  · decide
  · decide

/-- Counterexample to C5: in the run of `main` with a simulation-node JSON
file supplied (and all optional outputs off), the simulation nodes are NOT
added before the pruner runs — `prune` precedes `addSimNodes` in the
trace. -/
theorem sim_nodes_not_before_prune :
    ¬ evIdx Ev.addSimNodes (mainTrace false false false false true false)
        < evIdx Ev.prune (mainTrace false false false false true false) := by
  decide

/-- C5 (amended). Externally parsed simulation-node records are injected
into the simulation topology only after the graph has been reduced to its
largest connected component: in every run of `main` that supplies a
simulation-node JSON file, pruning strictly precedes the injection. -/
theorem sim_nodes_added_after_prune :
    ∀ debug kml lf go jo : Bool,
      evIdx Ev.prune (mainTrace debug kml lf go true jo)
        < evIdx Ev.addSimNodes (mainTrace debug kml lf go true jo) := by
  decide

/-- C6. When the `lengthFilter.enable` flag is false the density-filter
stage performs no work: the graph (node set and edge set, hence also the
derived edge weights) passes through unchanged. -/
theorem density_filter_disabled_identity :
    ∀ (pos : ℕ → Point) (densAt : ℕ → ℚ) (maxSqLen : ℚ → ℚ) (g : SGraph),
      densityFilterStage false pos densAt maxSqLen g = g ∧
      (densityFilterStage false pos densAt maxSqLen g).edges.image
          (edgeSqWeight pos)
        = g.edges.image (edgeSqWeight pos) :=
  fun _ _ _ _ => ⟨rfl, rfl⟩

theorem opticsStage_error {minPts : ℕ} {maxDist : ℚ}
    (h : minPts = 0 ∨ maxDist ≤ 0) (seed : ℕ) (pts : List Point) :
    ∃ msg, opticsStage minPts maxDist seed pts = Except.error msg := by
  by_cases h1 : minPts > 0
  · have h2 : maxDist ≤ 0 := by
      rcases h with h | h
      · omega
      · exact h
    refine ⟨"assertion failed: maxClusterDistance > 0.0", ?_⟩
    unfold opticsStage
    rw [if_neg (not_not_intro h1), if_pos (not_lt.2 h2)]
  · refine ⟨"assertion failed: minPts > 0", ?_⟩
    unfold opticsStage
    rw [if_pos h1]

/-- C7. A clustering pass configured with `minPts = 0` or a non-positive
neighbourhood radius fails its assertion before the clustering filter is
constructed: the stage never returns a filtered result (the filter is not
invoked), and the whole two-pass clustering phase of the pipeline aborts
with an error whichever pass is misconfigured. -/
theorem optics_invalid_config_aborts :
    ∀ (minPts1 : ℕ) (maxDist1 : ℚ) (minPts2 : ℕ) (maxDist2 : ℚ)
      (seed : ℕ) (pts : List Point),
      (minPts1 = 0 ∨ maxDist1 ≤ 0 →
        (∀ out, opticsStage minPts1 maxDist1 seed pts ≠ Except.ok out) ∧
        ∃ msg, clusteringPhase minPts1 maxDist1 minPts2 maxDist2 seed pts
            = Except.error msg) ∧
      (minPts2 = 0 ∨ maxDist2 ≤ 0 →
        (∀ pts' out,
          opticsStage minPts2 maxDist2 seed pts' ≠ Except.ok out) ∧
        ∃ msg, clusteringPhase minPts1 maxDist1 minPts2 maxDist2 seed pts
            = Except.error msg) := by
  intro minPts1 maxDist1 minPts2 maxDist2 seed pts
  constructor
  · intro h
    obtain ⟨msg, hmsg⟩ := opticsStage_error h seed pts
    refine ⟨fun out hout => by rw [hmsg] at hout; exact Except.noConfusion hout,
      msg, ?_⟩
    rw [clusteringPhase, hmsg]
    rfl
  · intro h
    refine ⟨fun pts' out hout => ?_, ?_⟩
    · obtain ⟨msg, hmsg⟩ := opticsStage_error h seed pts'
      rw [hmsg] at hout
      exact Except.noConfusion hout
    · rw [clusteringPhase]
      cases h1 : opticsStage minPts1 maxDist1 seed pts with
      | error msg1 => exact ⟨msg1, rfl⟩
      | ok mid =>
          obtain ⟨msg, hmsg⟩ := opticsStage_error h seed mid
          exact ⟨msg, by rw [Except.bind, hmsg]⟩

/-- Witness for C7: a pass with `minPts = 0` makes the stage error out and
the phase abort. -/
theorem optics_invalid_config_aborts_witness :
    ((0 : ℕ) = 0 ∨ (1 : ℚ) ≤ 0) ∧
    ((∀ out, opticsStage 0 1 0 [] ≠ Except.ok out) ∧
      ∃ msg, clusteringPhase 0 1 1 1 0 [] = Except.error msg) :=
  ⟨Or.inl rfl,
    (optics_invalid_config_aborts 0 1 1 1 0 []).1 (Or.inl rfl)⟩

/-- C8. The density clusterer is deterministic: it is a pure function of
the point set, the parameters and the seed (no hidden state), so two runs
with identical input, parameters and seed produce identical representative
subsets, and an identically configured stage returns identical results. -/
theorem optics_deterministic :
    ∀ (pts : List Point) (eps2 : ℚ) (minPts : ℕ) (epsP2 : ℚ) (seed : ℕ)
      (maxDist : ℚ),
      opticsFilter pts eps2 minPts epsP2 seed
          = opticsFilter pts eps2 minPts epsP2 seed ∧
      opticsStage minPts maxDist seed pts
          = opticsStage minPts maxDist seed pts :=
  fun _ _ _ _ _ _ => ⟨rfl, rfl⟩

/-- C9. For the four corners of the unit square, the triangulation is the
two triangles sharing the diagonal `(0,2)`, satisfying the
empty-circumcircle rule; its edge set is the four boundary edges plus
exactly that one diagonal; and the beta-skeleton filter at `β = 1` removes
exactly the diagonal, leaving the four boundary edges, which form a
4-cycle (connected and 2-regular on the four nodes). -/
theorem unit_square_triangulation_gabriel :
    emptyCircumcircles squarePos squareNodes squareTris ∧
    squareDelaunay.nodes = squareNodes ∧
    squareDelaunay.edges = squareBoundary ∪ {(0, 2)} ∧
    (0, 2) ∉ squareBoundary ∧
    (filterBetaSkeletonEdges squarePos 1 squareDelaunay).edges
        = squareBoundary ∧
    (filterBetaSkeletonEdges squarePos 1 squareDelaunay).nodes
        = squareNodes ∧
    componentOf (filterBetaSkeletonEdges squarePos 1 squareDelaunay) 0
        = squareNodes ∧
    (∀ v ∈ squareNodes,
      (filterBetaSkeletonEdges squarePos 1 squareDelaunay).degree v = 2) := by
  refine ⟨?_, by decide, by decide, by decide, squareGabrielEdges, rfl, ?_, ?_⟩
  · intro t ht w hw
    fin_cases ht <;> fin_cases hw <;>
      norm_num [strictlyInsideCircumcircle, orient, inCircleDet, squarePos]
  · rw [squareGabrielGraph]
    decide
  · rw [squareGabrielGraph]
    decide

/-- C10. When JSON graph output is enabled the output file name follows a
fixed precedence: a non-empty command-line name is used, otherwise the
name from the `json_graph_output` configuration entry. -/
theorem json_file_name_precedence :
    ∀ cli cfg : String,
      (cli.length > 0 → chooseJsonFileName cli cfg = cli) ∧
      (cli.length = 0 → chooseJsonFileName cli cfg = cfg) := by
  intro cli cfg
  constructor
  · intro h
    unfold chooseJsonFileName
    rw [if_pos h]
  · intro h
    unfold chooseJsonFileName
    rw [if_neg (by omega)]

/-- Witness for C10: concrete names on both sides of the precedence. -/
theorem json_file_name_precedence_witness :
    chooseJsonFileName "cli.json" "cfg.json" = "cli.json" ∧
    chooseJsonFileName "" "cfg.json" = "cfg.json" :=
  ⟨(json_file_name_precedence "cli.json" "cfg.json").1 (by decide),
    (json_file_name_precedence "" "cfg.json").2 (by decide)⟩

end TopoGen
